import Mathlib

/-!
Verification of the MindTagger cloud tool (Streamlit Jira worklog app).

Shallow embedding of the label codec (`src/utils/jira_api.py`), the OAuth
session manager (`src/utils/auth.py`), the credential/undo storage
(`src/utils/storage.py`) and the CSV import arithmetic (`src/app.py`,
`src/utils/csv_utils.py`), together with proofs of the specified
properties.
-/

namespace MindTagger

/-! ## Label codec — `src/utils/jira_api.py`

`P_LABEL_RE = re.compile(r"^P\d{6}$")`
`def is_p_label(s): return bool(P_LABEL_RE.match((s or "").strip()))`

We model Python's `str.strip()` (default whitespace set) and the anchored
regex match.  Python's `$` (without `re.MULTILINE`) matches at the end of
the string *or* just before a newline that is the last character, so the
faithful model of `P_LABEL_RE.match(t)` accepts `"P123456"` and also
`"P123456\n"`.  `\d` is modelled on the ASCII decimal digits (the common
core of Python's Unicode digit class used by every label in the app). -/

/-- Whitespace characters stripped by Python's `str.strip()`
(ASCII whitespace plus the Unicode space characters). -/
def pyIsSpace (c : Char) : Bool :=
  c = ' ' || c = '\t' || c = '\n' || c = '\r' ||
  c = (Char.ofNat 0x0b) || c = (Char.ofNat 0x0c) ||
  c = (Char.ofNat 0x1c) || c = (Char.ofNat 0x1d) ||
  c = (Char.ofNat 0x1e) || c = (Char.ofNat 0x1f) ||
  c = (Char.ofNat 0x85) || c = (Char.ofNat 0xa0) ||
  c = (Char.ofNat 0x1680) ||
  (0x2000 ≤ c.toNat && c.toNat ≤ 0x200a) ||
  c = (Char.ofNat 0x2028) || c = (Char.ofNat 0x2029) ||
  c = (Char.ofNat 0x202f) || c = (Char.ofNat 0x205f) ||
  c = (Char.ofNat 0x3000)

/-- The list `cs` with leading and trailing Python whitespace removed
(the list-of-characters model of `str.strip()`). -/
def pyStripList (cs : List Char) : List Char :=
  ((cs.dropWhile pyIsSpace).reverse.dropWhile pyIsSpace).reverse

/-- Model of Python `s.strip()`. -/
def pyStrip (s : String) : String :=
  String.mk (pyStripList s.toList)

/-- ASCII decimal digit, the model of the regex class `\d`. -/
def pyIsDigit (c : Char) : Bool :=
  '0' ≤ c && c ≤ '9'

/-- Model of `bool(P_LABEL_RE.match(t))` for `P_LABEL_RE = ^P\d{6}$`:
`re.match` anchors at position 0, and `$` matches at the end of the
string or just before a terminal newline. -/
def reMatchP6 (cs : List Char) : Bool :=
  match cs with
  | c :: rest =>
      c = 'P' && ((rest.length == 6 && rest.all pyIsDigit)
        || (rest.length == 7 && rest.dropLast.all pyIsDigit
              && rest.getLast? == some '\n'))
  | [] => false

/-- Function `is_p_label` from `src/utils/jira_api.py`
(`bool(P_LABEL_RE.match((s or "").strip()))`). -/
def is_p_label (s : String) : Bool :=
  reMatchP6 (pyStrip s).toList

/-- Function `extract_p_labels`: keep the labels matching the structured pattern,
in order. -/
def extract_p_labels (labels : List String) : List String :=
  labels.filter (fun l => is_p_label l)

/-- Function `strip_p_labels`: keep the labels NOT matching the structured pattern,
in order. -/
def strip_p_labels (labels : List String) : List String :=
  labels.filter (fun l => !is_p_label l)

/-- Function `compute_new_labels(old_labels, new_plabel)` from `src/utils/jira_api.py`:
`strip_p_labels(old_labels) + ([new_plabel] if new_plabel else [])`
(a Python string is truthy iff it is nonempty). -/
def compute_new_labels (old_labels : List String) (new_plabel : String) :
    List String :=
  strip_p_labels old_labels ++ (if new_plabel ≠ "" then [new_plabel] else [])

/-- The specification's reading of `is_structured`: the trimmed string is
exactly one uppercase `P` followed by exactly 6 decimal digits
(no more, no fewer). -/
def trimmedMatchesExactlyP6 (s : String) : Bool :=
  match (pyStrip s).toList with
  | c :: rest => c = 'P' && (rest.length == 6 && rest.all pyIsDigit)
  | [] => false

/-! ### Helper lemmas about stripping -/

theorem head?_dropWhile_not (p : Char → Bool) (l : List Char) :
    ∀ a, (l.dropWhile p).head? = some a → p a = false := by
  induction l with
  | nil => intro a h; simp [List.dropWhile] at h
  | cons x xs ih =>
      intro a h
      by_cases hx : p x
      · rw [List.dropWhile_cons_of_pos hx] at h
        exact ih a h
      · rw [List.dropWhile_cons_of_neg hx] at h
        simp at h
        subst h
        simpa using hx

/-- A stripped string never ends in a whitespace character. -/
theorem pyStripList_getLast?_not_space (cs : List Char) :
    ∀ a, (pyStripList cs).getLast? = some a → pyIsSpace a = false := by
  intro a h
  unfold pyStripList at h
  rw [List.getLast?_reverse] at h
  exact head?_dropWhile_not _ _ a h

theorem toList_pyStrip (s : String) :
    (pyStrip s).toList = pyStripList s.toList := rfl

/-- C7: for all strings `s`, `is_p_label s` is true iff `s` trimmed of
surrounding whitespace matches `^P\d{6}$` exactly: one uppercase `P`
followed by exactly 6 decimal digits, no more, no fewer, case-sensitive.
(The regex's `$` would also accept a terminal newline, but stripping
removes it, so the match is exact.)  Includes the four spec examples. -/
theorem is_structured_spec (s : String) :
    is_p_label s = trimmedMatchesExactlyP6 s
    ∧ is_p_label "P123456" = true
    ∧ is_p_label "p123456" = false
    ∧ is_p_label "P12345" = false
    ∧ is_p_label "P1234567" = false := by
  refine ⟨?_, by decide, by decide, by decide, by decide⟩
  unfold is_p_label trimmedMatchesExactlyP6 reMatchP6
  rw [toList_pyStrip]
  cases hL : pyStripList s.toList with
  | nil => rfl
  | cons c rest =>
      simp only
      have hnl : (rest.getLast? == some '\n') = false := by
        rw [beq_eq_false_iff_ne]
        intro hl
        have hrest : rest ≠ [] := by
          intro he; rw [he] at hl; simp at hl
        have hlast : (c :: rest).getLast? = some '\n' := by
          cases rest with
          | nil => exact absurd rfl hrest
          | cons r rs => rw [List.getLast?_cons_cons]; exact hl
        have := pyStripList_getLast?_not_space s.toList '\n' (hL ▸ hlast)
        simp [pyIsSpace] at this
      rw [hnl]
      simp

/-- C1: `compute_new_labels old new` is the non-matching (non-structured)
labels of `old` in their original order, followed by `new` appended exactly
once at the end, unless `new` is empty, in which case nothing is appended;
every prior structured label (not just one) is removed, so any structured
label left in the result can only be the new one.  Includes the two spec
examples. -/
theorem compute_replacement_spec (old_labels : List String)
    (new_plabel : String) :
    (new_plabel ≠ "" →
      compute_new_labels old_labels new_plabel =
        old_labels.filter (fun l => !is_p_label l) ++ [new_plabel])
    ∧ (new_plabel = "" →
      compute_new_labels old_labels new_plabel =
        old_labels.filter (fun l => !is_p_label l))
    ∧ (∀ l ∈ compute_new_labels old_labels new_plabel,
        is_p_label l = true → l = new_plabel)
    ∧ extract_p_labels (strip_p_labels old_labels) = []
    ∧ compute_new_labels ["P111111", "foo"] "P222222" = ["foo", "P222222"]
    ∧ compute_new_labels ["foo"] "" = ["foo"] := by
  refine ⟨?_, ?_, ?_, ?_, by decide, by decide⟩
  · intro hne
    simp [compute_new_labels, strip_p_labels, hne]
  · intro he
    simp [compute_new_labels, strip_p_labels, he]
  · intro l hl hp
    unfold compute_new_labels strip_p_labels at hl
    rcases List.mem_append.mp hl with hstrip | hnew
    · have := (List.mem_filter.mp hstrip).2
      simp [hp] at this
    · by_cases hne : new_plabel = ""
      · simp [hne] at hnew
      · simp [hne] at hnew
        exact hnew
  · unfold extract_p_labels strip_p_labels
    rw [List.filter_filter]
    apply List.filter_eq_nil_iff.mpr
    intro a _
    simp only [Bool.and_eq_true, Bool.not_eq_true']
    intro ⟨h1, h2⟩
    rw [h1] at h2
    exact Bool.noConfusion h2

/-- Concrete witness for `compute_replacement_spec`: at
`old = ["P111111","foo"]`, `new = "P222222"` the hypotheses are
dischargeable and the appended form holds. -/
theorem compute_replacement_spec_witness :
    compute_new_labels ["P111111", "foo"] "P222222" =
      (["P111111", "foo"] : List String).filter (fun l => !is_p_label l)
        ++ ["P222222"] :=
  (compute_replacement_spec ["P111111", "foo"] "P222222").1 (by decide)

/-! ## Credential store — `src/utils/storage.py`

Two tables, `user_oauth` and `undo_worklog`, each with an autoincrement
integer primary key `id`.  We model a table as a list of rows in insertion
order together with the next autoincrement id; JSON-serialized columns
(`token_json`, `cloud_json`) are modelled by the serialized value itself
(`json.dumps` is injective on these records). -/

/-- The token dictionary held by the session and serialized into
`token_json`: `access_token`, optional `refresh_token`, optional
`expires_in` (provider-supplied), and the derived `expires_at`. -/
structure Token where
  access_token : String
  refresh_token : Option String
  expires_in : Option Int
  expires_at : Int
  deriving DecidableEq, Repr

/-- A resolved tenant (`{"id":…, "url":…, "name":…}`). -/
structure Cloud where
  id : String
  url : String
  name : String
  deriving DecidableEq, Repr

/-- A row of the `user_oauth` table. -/
structure OAuthRow where
  id : Nat
  email : String
  cloud_id : String
  cloud_url : String
  cloud_name : String
  token_json : Token
  cloud_json : Cloud
  saved_at : Int
  deriving DecidableEq, Repr

/-- A row of the `undo_worklog` table. -/
structure UndoRow where
  id : Nat
  email : String
  issue_key : String
  worklog_id : String
  saved_at : Int
  deriving DecidableEq, Repr

/-- The credential store state: both tables plus their autoincrement
counters. -/
structure Store where
  user_oauth : List OAuthRow
  undo_worklog : List UndoRow
  next_oauth_id : Nat
  next_undo_id : Nat
  deriving DecidableEq, Repr

/-- Models `SELECT id FROM user_oauth ORDER BY id DESC LIMIT 1`. -/
def maxOAuthId (rows : List OAuthRow) : Option Nat :=
  rows.foldl (fun acc r =>
    match acc with
    | none => some r.id
    | some m => some (max m r.id)) none

/-- One step of the greatest-`id` scan. -/
def lastRowStep (acc : Option UndoRow) (r : UndoRow) : Option UndoRow :=
  match acc with
  | none => some r
  | some m => if m.id < r.id then some r else some m

/-- Models `SELECT … FROM undo_worklog WHERE email=? ORDER BY id DESC LIMIT 1`,
applied to the already-filtered rows: the row with the greatest `id`. -/
def lastRowById (rows : List UndoRow) : Option UndoRow :=
  rows.foldl lastRowStep none

/-- Method `Storage.save_oauth`: inserts a fresh `user_oauth` row (the dynamic
insert writes the email, tenant columns, serialized token/tenant and the
timestamp; the autoincrement key supplies `id`). -/
def save_oauth (st : Store) (email : String) (token : Token)
    (cloud : Cloud) (ts : Int) : Store :=
  { st with
    user_oauth := st.user_oauth ++
      [{ id := st.next_oauth_id
         email := if email ≠ "" then email else "unknown"
         cloud_id := cloud.id
         cloud_url := cloud.url
         cloud_name := cloud.name
         token_json := token
         cloud_json := cloud
         saved_at := ts }]
    next_oauth_id := st.next_oauth_id + 1 }

/-- Method `Storage.update_oauth_token`:
`UPDATE user_oauth SET token_json=?, saved_at=?
 WHERE id = (SELECT id FROM user_oauth ORDER BY id DESC LIMIT 1)`.
Note the subquery has no email condition: it selects the greatest `id`
of the whole table. -/
def update_oauth_token (st : Store) (token : Token) (ts : Int) : Store :=
  match maxOAuthId st.user_oauth with
  | none => st
  | some m =>
      { st with
        user_oauth := st.user_oauth.map (fun r =>
          if r.id = m then { r with token_json := token, saved_at := ts }
          else r) }

/-- Method `Storage.set_last_worklog(email, worklog_id, issue_key)`:
`INSERT INTO undo_worklog(email, issue_key, worklog_id, saved_at)`. -/
def set_last_worklog (st : Store) (email worklog_id issue_key : String)
    (ts : Int) : Store :=
  { st with
    undo_worklog := st.undo_worklog ++
      [{ id := st.next_undo_id
         email := email
         issue_key := issue_key
         worklog_id := worklog_id
         saved_at := ts }]
    next_undo_id := st.next_undo_id + 1 }

/-- Method `Storage.get_last_worklog(email)`: the (`issue_key`, `worklog_id`) of
the row with the greatest `id` among this identity's rows, if any. -/
def get_last_worklog (st : Store) (email : String) :
    Option (String × String) :=
  (lastRowById (st.undo_worklog.filter (fun r => r.email = email))).map
    (fun r => (r.issue_key, r.worklog_id))

/-- Method `Storage.clear_last_worklog(email)`:
`DELETE FROM undo_worklog WHERE id IN
   (SELECT id FROM undo_worklog WHERE email=? ORDER BY id DESC LIMIT 1)`. -/
def clear_last_worklog (st : Store) (email : String) : Store :=
  match lastRowById (st.undo_worklog.filter (fun r => r.email = email)) with
  | none => st
  | some r =>
      { st with undo_worklog := st.undo_worklog.filter (fun x => x.id ≠ r.id) }

/-- Table well-formedness: every autoincrement key already present is
below the next one to be assigned (invariant of `AUTOINCREMENT`/`SERIAL`
primary keys). -/
def UndoWF (st : Store) : Prop :=
  ∀ r ∈ st.undo_worklog, r.id < st.next_undo_id

instance (st : Store) : Decidable (UndoWF st) := by
  unfold UndoWF; infer_instance

/-! ### Undo-log lemmas -/

theorem foldl_lastRowStep_bound (n : Nat) (l : List UndoRow) :
    ∀ acc, (∀ x ∈ l, x.id < n) → (∀ m, acc = some m → m.id < n) →
      ∀ m', l.foldl lastRowStep acc = some m' → m'.id < n := by
  induction l with
  | nil =>
      intro acc _ hacc m' h
      exact hacc m' h
  | cons x xs ih =>
      intro acc hl hacc m' h
      rw [List.foldl_cons] at h
      refine ih (lastRowStep acc x)
        (fun y hy => hl y (List.mem_cons_of_mem _ hy)) ?_ m' h
      intro m hm
      unfold lastRowStep at hm
      cases hacc' : acc with
      | none =>
          rw [hacc'] at hm
          simp at hm
          exact hm ▸ hl x (List.mem_cons_self x xs)
      | some m0 =>
          rw [hacc'] at hm
          simp only at hm
          by_cases hlt : m0.id < x.id
          · rw [if_pos hlt] at hm
            simp at hm
            exact hm ▸ hl x (List.mem_cons_self x xs)
          · rw [if_neg hlt] at hm
            simp at hm
            exact hm ▸ hacc m0 hacc'

/-- Appending a row whose `id` beats everything before it makes it the
`ORDER BY id DESC LIMIT 1` result. -/
theorem lastRowById_append_last (l : List UndoRow) (r : UndoRow)
    (h : ∀ x ∈ l, x.id < r.id) : lastRowById (l ++ [r]) = some r := by
  unfold lastRowById
  rw [List.foldl_append]
  cases hacc : l.foldl lastRowStep none with
  | none => rfl
  | some m =>
      have hm := foldl_lastRowStep_bound r.id l none h (by simp) m hacc
      simp [lastRowStep, hm]

/-- C8: the undo bookkeeping is an append log ordered by the
monotonically increasing insertion key (`id`), not by wall-clock
(`ts1`, `ts2` are arbitrary): after recording (`i1`,`w1`) then
(`i2`,`w2`) for identity `u`, a peek returns the second record;
clearing removes only that single most recent record — the table is
exactly what it was before the second insert — so a subsequent peek
returns the first record. -/
theorem undo_stack_spec (st : Store) (u i1 w1 i2 w2 : String)
    (ts1 ts2 : Int) (hwf : UndoWF st) :
    get_last_worklog (set_last_worklog (set_last_worklog st u w1 i1 ts1)
        u w2 i2 ts2) u = some (i2, w2)
    ∧ (clear_last_worklog (set_last_worklog (set_last_worklog st u w1 i1 ts1)
        u w2 i2 ts2) u).undo_worklog =
      (set_last_worklog st u w1 i1 ts1).undo_worklog
    ∧ get_last_worklog (clear_last_worklog
        (set_last_worklog (set_last_worklog st u w1 i1 ts1) u w2 i2 ts2) u)
        u = some (i1, w1) := by
  set n := st.next_undo_id with hn
  set r1 : UndoRow :=
    { id := n, email := u, issue_key := i1, worklog_id := w1,
      saved_at := ts1 } with hr1
  set r2 : UndoRow :=
    { id := n + 1, email := u, issue_key := i2, worklog_id := w2,
      saved_at := ts2 } with hr2
  have hset1 : (set_last_worklog st u w1 i1 ts1).undo_worklog =
      st.undo_worklog ++ [r1] := rfl
  have hset2 : (set_last_worklog (set_last_worklog st u w1 i1 ts1)
      u w2 i2 ts2).undo_worklog = (st.undo_worklog ++ [r1]) ++ [r2] := rfl
  have hbound : ∀ x ∈ st.undo_worklog, x.id < n := hwf
  -- the email filter keeps the two fresh rows
  have hfilter2 : ((st.undo_worklog ++ [r1]) ++ [r2]).filter
      (fun r => r.email = u) =
      (st.undo_worklog.filter (fun r => r.email = u) ++ [r1]) ++ [r2] := by
    simp [hr1, hr2]
  have hboundF : ∀ x ∈ st.undo_worklog.filter (fun r => r.email = u),
      x.id < n := fun x hx => hbound x (List.mem_filter.mp hx).1
  have hbound12 : ∀ x ∈ st.undo_worklog.filter (fun r => r.email = u)
      ++ [r1], x.id < r2.id := by
    intro x hx
    rcases List.mem_append.mp hx with hx | hx
    · exact Nat.lt_trans (hboundF x hx) (Nat.lt_succ_self n)
    · simp at hx
      rw [hx, hr1, hr2]
      exact Nat.lt_succ_self n
  have hlast2 : lastRowById (((st.undo_worklog ++ [r1]) ++ [r2]).filter
      (fun r => r.email = u)) = some r2 := by
    rw [hfilter2]
    exact lastRowById_append_last _ r2 hbound12
  have hpeek2 : get_last_worklog (set_last_worklog
      (set_last_worklog st u w1 i1 ts1) u w2 i2 ts2) u = some (i2, w2) := by
    unfold get_last_worklog
    rw [hset2, hlast2]
    rfl
  -- clearing removes exactly the row with id = r2.id = n+1
  have hclear : (clear_last_worklog (set_last_worklog
      (set_last_worklog st u w1 i1 ts1) u w2 i2 ts2) u).undo_worklog =
      st.undo_worklog ++ [r1] := by
    unfold clear_last_worklog
    rw [hset2, hlast2]
    simp only [hset2]
    rw [List.filter_append, List.filter_append]
    have h1 : st.undo_worklog.filter (fun x => x.id ≠ r2.id) =
        st.undo_worklog := by
      apply List.filter_eq_self.mpr
      intro x hx
      have := hbound x hx
      simp only [hr2, decide_eq_true_eq, ne_eq]
      omega
    have h2 : [r1].filter (fun x => x.id ≠ r2.id) = [r1] := by
      simp [hr1, hr2]
    have h3 : [r2].filter (fun x => x.id ≠ r2.id) = [] := by
      simp
    rw [h1, h2, h3, List.append_nil]
  refine ⟨hpeek2, by rw [hclear, hset1], ?_⟩
  -- peek after clear: the first record is now the greatest id for u
  unfold get_last_worklog
  rw [hclear]
  have hfilter1 : (st.undo_worklog ++ [r1]).filter (fun r => r.email = u) =
      st.undo_worklog.filter (fun r => r.email = u) ++ [r1] := by
    simp [hr1]
  rw [hfilter1]
  have hb1 : ∀ x ∈ st.undo_worklog.filter (fun r => r.email = u),
      x.id < r1.id := fun x hx => hboundF x hx
  rw [lastRowById_append_last _ r1 hb1]
  rfl

/-- Concrete witness for `undo_stack_spec`: the spec scenario
`record(u,"T-1","10")`, `record(u,"T-2","20")` starting from the empty
store. -/
theorem undo_stack_spec_witness :
    get_last_worklog (set_last_worklog (set_last_worklog
        ⟨[], [], 0, 0⟩ "u" "10" "T-1" 5) "u" "20" "T-2" 3) "u" =
      some ("T-2", "20")
    ∧ get_last_worklog (clear_last_worklog (set_last_worklog
        (set_last_worklog ⟨[], [], 0, 0⟩ "u" "10" "T-1" 5)
        "u" "20" "T-2" 3) "u") "u" = some ("T-1", "10") := by
  have h := undo_stack_spec ⟨[], [], 0, 0⟩ "u" "T-1" "10" "T-2" "20" 5 3
    (by intro r hr; simp at hr)
  exact ⟨h.1, h.2.2⟩

/-! ### `update_oauth_token` frame lemmas -/

theorem zip_map_self {α β : Type} (f : α → β) (l : List α) :
    (l.map f).zip l = l.map (fun x => (f x, x)) := by
  induction l with
  | nil => rfl
  | cons x xs ih => simp [ih]

/-- C10: `update_oauth_token` touches only the `user_oauth` table and
there rewrites at most one row — the row whose `id` is the greatest in
the whole table, irrespective of email — setting only its `token_json`
and `saved_at` columns; every other row and every other column is left
unchanged, and no row is added or deleted. -/
theorem update_oauth_token_frame (st : Store) (tok : Token) (ts : Int)
    (hnd : (st.user_oauth.map OAuthRow.id).Nodup) :
    (update_oauth_token st tok ts).undo_worklog = st.undo_worklog
    ∧ (update_oauth_token st tok ts).next_oauth_id = st.next_oauth_id
    ∧ (update_oauth_token st tok ts).next_undo_id = st.next_undo_id
    ∧ (update_oauth_token st tok ts).user_oauth.length =
        st.user_oauth.length
    ∧ ((update_oauth_token st tok ts).user_oauth.zip
        st.user_oauth).countP (fun p => p.1 ≠ p.2) ≤ 1
    ∧ ∀ p ∈ (update_oauth_token st tok ts).user_oauth.zip st.user_oauth,
        p.1.id = p.2.id ∧ p.1.email = p.2.email
        ∧ p.1.cloud_id = p.2.cloud_id ∧ p.1.cloud_url = p.2.cloud_url
        ∧ p.1.cloud_name = p.2.cloud_name ∧ p.1.cloud_json = p.2.cloud_json
        ∧ (p.1 ≠ p.2 → some p.2.id = maxOAuthId st.user_oauth
            ∧ p.1.token_json = tok ∧ p.1.saved_at = ts) := by
  unfold update_oauth_token
  cases hmax : maxOAuthId st.user_oauth with
  | none =>
      have hz : st.user_oauth.zip st.user_oauth =
          st.user_oauth.map (fun x => (x, x)) := by
        simpa using zip_map_self (fun x => x) st.user_oauth
      refine ⟨rfl, rfl, rfl, rfl, ?_, ?_⟩
      · show (st.user_oauth.zip st.user_oauth).countP _ ≤ 1
        rw [hz, List.countP_map]
        have hfalse : ((fun p : OAuthRow × OAuthRow => decide (p.1 ≠ p.2)) ∘
            fun x => (x, x)) = fun _ => false := by
          funext x; simp
        rw [hfalse]
        simp
      · show ∀ p ∈ st.user_oauth.zip st.user_oauth, _
        intro p hp
        rw [hz] at hp
        rcases List.mem_map.mp hp with ⟨x, _, hx⟩
        refine hx ▸ ⟨rfl, rfl, rfl, rfl, rfl, rfl, fun h => absurd rfl h⟩
  | some m =>
      set f : OAuthRow → OAuthRow := fun r =>
        if r.id = m then { r with token_json := tok, saved_at := ts }
        else r with hf
      have hzip : (st.user_oauth.map f).zip st.user_oauth =
          st.user_oauth.map (fun r => (f r, r)) := zip_map_self f _
      refine ⟨rfl, rfl, rfl, by simp, ?_, ?_⟩
      · show ((st.user_oauth.map f).zip st.user_oauth).countP _ ≤ 1
        rw [hzip, List.countP_map]
        have hmono : ∀ r ∈ st.user_oauth,
            ((fun p : OAuthRow × OAuthRow => decide (p.1 ≠ p.2)) ∘
              (fun r => (f r, r))) r = true →
            (fun r : OAuthRow => decide (r.id = m)) r = true := by
          intro r _ hr
          simp only [Function.comp_apply, decide_eq_true_eq] at hr ⊢
          by_contra hne
          exact hr (by simp [hf, hne])
        refine le_trans (List.countP_mono_left hmono) ?_
        have hcount : st.user_oauth.countP (fun r => decide (r.id = m)) =
            (st.user_oauth.map OAuthRow.id).count m := by
          rw [List.count, List.countP_map]
          congr 1
        rw [hcount]
        exact List.nodup_iff_count_le_one.mp hnd m
      · show ∀ p ∈ (st.user_oauth.map f).zip st.user_oauth, _
        intro p hp
        rw [hzip] at hp
        rcases List.mem_map.mp hp with ⟨r, _, hr⟩
        subst hr
        by_cases hid : r.id = m
        · refine ⟨by simp [hf, hid], by simp [hf, hid], by simp [hf, hid],
            by simp [hf, hid], by simp [hf, hid], by simp [hf, hid],
            fun _ => ⟨by rw [hid], by simp [hf, hid], by simp [hf, hid]⟩⟩
        · refine ⟨by simp [hf, hid], by simp [hf, hid], by simp [hf, hid],
            by simp [hf, hid], by simp [hf, hid], by simp [hf, hid],
            fun h => absurd (by simp [hf, hid]) h⟩

/-- Concrete witness for `update_oauth_token_frame`: a two-identity
table where the refreshed token belongs to the first identity but the
rewritten row is the globally newest one. -/
theorem update_oauth_token_frame_witness :
    ((update_oauth_token
        ⟨[⟨1, "alice", "c1", "u1", "n1", ⟨"a", none, none, 0⟩,
            ⟨"c1", "u1", "n1"⟩, 10⟩,
          ⟨2, "bob", "c2", "u2", "n2", ⟨"b", none, none, 0⟩,
            ⟨"c2", "u2", "n2"⟩, 20⟩], [], 3, 0⟩
        ⟨"fresh", some "r", some 3600, 4600⟩ 77).user_oauth.zip
      ([⟨1, "alice", "c1", "u1", "n1", ⟨"a", none, none, 0⟩,
          ⟨"c1", "u1", "n1"⟩, 10⟩,
        ⟨2, "bob", "c2", "u2", "n2", ⟨"b", none, none, 0⟩,
          ⟨"c2", "u2", "n2"⟩, 20⟩] : List OAuthRow)).countP
      (fun p => p.1 ≠ p.2) ≤ 1 :=
  (update_oauth_token_frame
    ⟨[⟨1, "alice", "c1", "u1", "n1", ⟨"a", none, none, 0⟩,
        ⟨"c1", "u1", "n1"⟩, 10⟩,
      ⟨2, "bob", "c2", "u2", "n2", ⟨"b", none, none, 0⟩,
        ⟨"c2", "u2", "n2"⟩, 20⟩], [], 3, 0⟩
    ⟨"fresh", some "r", some 3600, 4600⟩ 77 (by decide)).2.2.2.2.1

/-! ## OAuth session manager — `src/utils/auth.py`

The manager's network effects are modelled by passing each HTTP response
as an explicit parameter; "now" (`int(time.time())`) is an explicit
integer.  Form bodies and header sets are Python dicts, modelled as
insertion-ordered association lists. -/

/-- UTF-8 encoding of one character, as byte values. -/
def utf8EncodeChar (c : Char) : List Nat :=
  let n := c.toNat
  if n < 0x80 then [n]
  else if n < 0x800 then [0xC0 + n / 64, 0x80 + n % 64]
  else if n < 0x10000 then
    [0xE0 + n / 4096, 0x80 + (n / 64) % 64, 0x80 + n % 64]
  else
    [0xF0 + n / 262144, 0x80 + (n / 4096) % 64, 0x80 + (n / 64) % 64,
     0x80 + n % 64]

/-- UTF-8 encoding of a string (`s.encode("utf-8")`). -/
def utf8Encode (s : String) : List Nat :=
  (s.toList.map utf8EncodeChar).flatten

/-- The base64 alphabet. -/
def b64Chars : List Char :=
  "ABCDEFGHIJKLMNOPQRSTUVWXYZabcdefghijklmnopqrstuvwxyz0123456789+/".toList

def b64Digit (n : Nat) : Char :=
  b64Chars.getD n '='

/-- Standard base64 of a byte sequence, with padding
(`base64.b64encode`). -/
def b64EncodeBytes : List Nat → List Char
  | [] => []
  | [a] => [b64Digit (a / 4), b64Digit (a % 4 * 16), '=', '=']
  | [a, b] => [b64Digit (a / 4), b64Digit (a % 4 * 16 + b / 16),
      b64Digit (b % 16 * 4), '=']
  | a :: b :: c :: rest =>
      b64Digit (a / 4) :: b64Digit (a % 4 * 16 + b / 16) ::
      b64Digit (b % 16 * 4 + c / 64) :: b64Digit (c % 64) ::
      b64EncodeBytes rest

/-- Models `base64.b64encode(s.encode("utf-8")).decode("ascii")`. -/
def b64encode (s : String) : String :=
  String.mk (b64EncodeBytes (utf8Encode s))

/-- A Python dict of strings: insertion-ordered key/value pairs. -/
abbrev Dict := List (String × String)

/-- Dictionary lookup `d[k]`. -/
def dictGet (d : Dict) (k : String) : Option String :=
  (d.find? (fun p => p.1 = k)).map (fun p => p.2)

/-- Dictionary assignment `d[k] = v`: overwrite in place if the key exists (order preserved),
otherwise append. -/
def dictSet (d : Dict) (k v : String) : Dict :=
  if d.any (fun p => p.1 = k) then
    d.map (fun p => if p.1 = k then (k, v) else p)
  else d ++ [(k, v)]

/-- Models the comprehension dropping key `k` from `d` (order kept). -/
def dictDropKey (d : Dict) (k : String) : Dict :=
  d.filter (fun p => p.1 ≠ k)

def AUTH_BASE : String := "https://auth.atlassian.com"

/-- An outbound HTTP POST to the token endpoint. -/
structure HttpRequest where
  url : String
  headers : Dict
  body : Dict
  deriving DecidableEq, Repr

/-- Method `AtlassianAuth._post_token`: confidential clients (nonempty stripped
secret) get HTTP Basic auth and the secret is dropped from the body;
public clients get `client_id` in the body and no Authorization header.
Both grant types go through this single builder. -/
def post_token (client_id client_secret : String) (data : Dict) :
    HttpRequest :=
  let headers : Dict := [("Content-Type", "application/x-www-form-urlencoded")]
  if client_secret ≠ "" then
    { url := AUTH_BASE ++ "/oauth/token"
      headers := dictSet headers "Authorization"
        ("Basic " ++ b64encode (client_id ++ ":" ++ client_secret))
      body := dictDropKey data "client_secret" }
  else
    { url := AUTH_BASE ++ "/oauth/token"
      headers := headers
      body := dictSet data "client_id" client_id }

/-- The JSON body of a token-endpoint response (`r.json()`). -/
structure TokenResp where
  access_token : String
  refresh_token : Option String
  expires_in : Option Int
  deriving DecidableEq, Repr

/-- Models `tok = r.json()` followed by the assignment of
`tok["expires_at"] = now + int(tok.get("expires_in", 3600))`:
the whole response dictionary becomes the new token, with `expires_at`
added. -/
def mkToken (body : TokenResp) (now : Int) : Token :=
  { access_token := body.access_token
    refresh_token := body.refresh_token
    expires_in := body.expires_in
    expires_at := now + body.expires_in.getD 3600 }

/-- A token-endpoint HTTP response: status code plus parsed JSON body. -/
structure TokenHttpResp where
  status : Int
  body : TokenResp
  deriving DecidableEq, Repr

/-- An accessible-resources HTTP response: status code plus the list of
tenant descriptors. -/
structure ResourcesResp where
  status : Int
  body : List Cloud
  deriving DecidableEq, Repr

/-- The session manager's mutable state: in-memory token and tenant
(session state) plus the credential store. -/
structure AuthSt where
  _token : Option Token
  _cloud : Option Cloud
  storage : Store
  deriving DecidableEq, Repr

/-- Python truthiness of `d.get(key)` for an optional string: falsy when
missing or empty. -/
def pyTruthyOptStr (o : Option String) : Bool :=
  o.getD "" ≠ ""

/-- Method `AtlassianAuth.refresh_token`: no-op `False` without a (truthy)
refresh_token; `False` leaving everything unchanged on a non-200
exchange; on 200, the response becomes the new in-memory token (with
recomputed `expires_at`) and is persisted via `update_oauth_token`. -/
def refresh_token (st : AuthSt) (now : Int) (resp : TokenHttpResp)
    (ts : Int) : Bool × AuthSt :=
  match st._token with
  | none => (false, st)
  | some tok =>
      if pyTruthyOptStr tok.refresh_token = false then (false, st)
      else if resp.status ≠ 200 then (false, st)
      else
        let newTok := mkToken resp.body now
        (true, { st with
          _token := some newTok
          storage := update_oauth_token st.storage newTok ts })

/-- Method `AtlassianAuth.get_headers` (`ensure_fresh`), returning the header
dict, the number of refresh calls made, and the resulting state.  The
inner `none` branch is unreachable (a refresh never discards the held
token); the code would raise there. -/
def get_headers (st : AuthSt) (now : Int) (resp : TokenHttpResp)
    (ts : Int) : Dict × Nat × AuthSt :=
  match st._token with
  | none => ([], 0, st)
  | some tok =>
      let refreshed : AuthSt × Nat :=
        if tok.expires_at - now ≤ 60 then
          ((refresh_token st now resp ts).2, 1)
        else (st, 0)
      match refreshed.1._token with
      | some tok2 =>
          ([("Authorization", "Bearer " ++ tok2.access_token),
            ("Accept", "application/json"),
            ("Content-Type", "application/json")],
           refreshed.2, refreshed.1)
      | none => ([], refreshed.2, refreshed.1)

/-- The decrypted OAuth state object built by `render_login_flow`. -/
structure StateObj where
  email : String
  verifier : String
  ts : Int
  code_verifier : String
  deriving DecidableEq, Repr

/-- Models `self.fernet.decrypt(enc_state, ttl=600)`: yields the state object
when the ciphertext authenticates (`valid`) and the embedded issuance
timestamp is within the 600-second window (Fernet also rejects tokens
from more than 60 seconds in the future). -/
def fernetDecrypt (valid : Bool) (obj : StateObj) (tokenTs now : Int) :
    Option StateObj :=
  if valid = true ∧ now ≤ tokenTs + 600 ∧ tokenTs ≤ now + 60 then some obj
  else none

/-- Method `AtlassianAuth._handle_callback` (`complete_login`): decrypt and
TTL-check the state, recover the PKCE verifier (state first, session
fallback), exchange the code, resolve the first tenant, then atomically
install the token/tenant in memory and persist via `save_oauth`.  Every
failure path returns the state unchanged. -/
def handle_callback (st : AuthSt) (stateValid : Bool) (stateObj : StateObj)
    (stateTokenTs : Int) (sessionVerifier : String)
    (tokenResp : TokenHttpResp) (resourcesResp : ResourcesResp)
    (now ts : Int) : AuthSt :=
  match fernetDecrypt stateValid stateObj stateTokenTs now with
  | none => st
  | some state =>
      let code_verifier :=
        if state.code_verifier ≠ "" then state.code_verifier
        else sessionVerifier
      if code_verifier = "" then st
      else if tokenResp.status ≠ 200 then st
      else
        let tok := mkToken tokenResp.body now
        if resourcesResp.status ≠ 200 then st
        else
          match resourcesResp.body with
          | [] => st
          | cloud :: _ =>
              { _token := some tok
                _cloud := some cloud
                storage := save_oauth st.storage state.email tok cloud ts }

/-! ### Dict lemmas -/

theorem find?_map_overwrite (k v : String) (d : Dict)
    (h : d.any (fun p => p.1 = k) = true) :
    (d.map (fun p => if p.1 = k then (k, v) else p)).find?
      (fun p => decide (p.1 = k)) = some (k, v) := by
  induction d with
  | nil => simp at h
  | cons x xs ih =>
      by_cases hx : x.1 = k
      · rw [List.map_cons, if_pos hx]
        exact List.find?_cons_of_pos _ (by simp)
      · rw [List.map_cons, if_neg hx,
          List.find?_cons_of_neg _ (by simpa using hx)]
        refine ih ?_
        simp only [List.any_cons, Bool.or_eq_true, decide_eq_true_eq] at h
        rcases h with h | h
        · exact absurd h hx
        · exact h

theorem find?_append_fresh (k v : String) (d : Dict)
    (h : d.any (fun p => p.1 = k) = false) :
    (d ++ [(k, v)]).find? (fun p => decide (p.1 = k)) = some (k, v) := by
  induction d with
  | nil => simp
  | cons x xs ih =>
      simp only [List.any_cons, Bool.or_eq_false_iff,
        decide_eq_false_iff_not] at h
      rw [List.cons_append, List.find?_cons_of_neg _ (by simpa using h.1)]
      exact ih h.2

theorem dictGet_dictSet (d : Dict) (k v : String) :
    dictGet (dictSet d k v) k = some v := by
  unfold dictGet dictSet
  by_cases h : d.any (fun p => p.1 = k) = true
  · rw [if_pos h, find?_map_overwrite k v d h]; rfl
  · rw [if_neg h, find?_append_fresh k v d (by
      rwa [Bool.not_eq_true] at h)]
    rfl

theorem dictGet_dictDropKey (d : Dict) (k : String) :
    dictGet (dictDropKey d k) k = none := by
  unfold dictGet dictDropKey
  have hnone : (d.filter (fun p => decide (p.1 ≠ k))).find?
      (fun p => decide (p.1 = k)) = none := by
    rw [List.find?_eq_none]
    intro x hx
    have := (List.mem_filter.mp hx).2
    simp only [decide_eq_true_eq] at this ⊢
    exact this
  rw [hnone]
  rfl

/-- C6: for every token-endpoint call (the single builder shared by the
authorization-code exchange and refresh): with a configured secret the
request carries HTTP Basic authorization built from client id and secret
and its body has no `client_secret` key; without a secret the body
carries `client_id` and there is no Authorization header. -/
theorem client_mode_spec (client_id client_secret : String) (data : Dict) :
    (client_secret ≠ "" →
      dictGet (post_token client_id client_secret data).headers
          "Authorization" =
        some ("Basic " ++ b64encode (client_id ++ ":" ++ client_secret))
      ∧ dictGet (post_token client_id client_secret data).body
          "client_secret" = none)
    ∧ (client_secret = "" →
      dictGet (post_token client_id client_secret data).body "client_id" =
        some client_id
      ∧ dictGet (post_token client_id client_secret data).headers
          "Authorization" = none) := by
  constructor
  · intro hs
    have hpt : post_token client_id client_secret data =
        { url := AUTH_BASE ++ "/oauth/token"
          headers := dictSet
            [("Content-Type", "application/x-www-form-urlencoded")]
            "Authorization"
            ("Basic " ++ b64encode (client_id ++ ":" ++ client_secret))
          body := dictDropKey data "client_secret" } := by
      unfold post_token
      rw [if_pos hs]
    rw [hpt]
    constructor
    · show dictGet (dictSet
          [("Content-Type", "application/x-www-form-urlencoded")]
          "Authorization"
          ("Basic " ++ b64encode (client_id ++ ":" ++ client_secret)))
          "Authorization" = _
      exact dictGet_dictSet _ _ _
    · show dictGet (dictDropKey data "client_secret") "client_secret" = _
      exact dictGet_dictDropKey _ _
  · intro hs
    have hpt : post_token client_id client_secret data =
        { url := AUTH_BASE ++ "/oauth/token"
          headers := [("Content-Type", "application/x-www-form-urlencoded")]
          body := dictSet data "client_id" client_id } := by
      unfold post_token
      rw [if_neg (by simp [hs])]
    rw [hpt]
    constructor
    · show dictGet (dictSet data "client_id" client_id) "client_id" = _
      exact dictGet_dictSet _ _ _
    · show dictGet
          [("Content-Type", "application/x-www-form-urlencoded")]
          "Authorization" = none
      simp [dictGet, List.find?]

/-- Concrete witness for `client_mode_spec`: a confidential client with
the refresh grant body; the Basic header value is evaluated fully. -/
theorem client_mode_spec_witness :
    dictGet (post_token "me" "sec"
        [("grant_type", "refresh_token"), ("refresh_token", "r1"),
         ("client_secret", "sec")]).headers "Authorization" =
      some ("Basic " ++ b64encode ("me" ++ ":" ++ "sec"))
    ∧ dictGet (post_token "me" "sec"
        [("grant_type", "refresh_token"), ("refresh_token", "r1"),
         ("client_secret", "sec")]).body "client_secret" = none :=
  (client_mode_spec "me" "sec"
    [("grant_type", "refresh_token"), ("refresh_token", "r1"),
     ("client_secret", "sec")]).1 (by decide)

/-- C4: `refresh_token` is a no-op returning `false` when no truthy
refresh_token is held (or no token at all); a non-200 exchange returns
`false` leaving the previous in-memory token and the store untouched;
a 200 response yields `true`, the in-memory token is replaced by the
response with `expires_at` recomputed from its `expires_in`, and the
update is persisted to the credential store. -/
theorem refresh_spec (st : AuthSt) (now : Int) (resp : TokenHttpResp)
    (ts : Int) :
    (st._token = none → refresh_token st now resp ts = (false, st))
    ∧ (∀ tok, st._token = some tok →
        pyTruthyOptStr tok.refresh_token = false →
        refresh_token st now resp ts = (false, st))
    ∧ (resp.status ≠ 200 → refresh_token st now resp ts = (false, st))
    ∧ (∀ tok, st._token = some tok →
        pyTruthyOptStr tok.refresh_token = true → resp.status = 200 →
        refresh_token st now resp ts =
          (true, { st with
            _token := some (mkToken resp.body now)
            storage :=
              update_oauth_token st.storage (mkToken resp.body now) ts })
        ∧ (mkToken resp.body now).expires_at =
            now + resp.body.expires_in.getD 3600) := by
  refine ⟨?_, ?_, ?_, ?_⟩
  · intro h
    unfold refresh_token
    rw [h]
  · intro tok h hf
    unfold refresh_token
    rw [h]
    simp [hf]
  · intro h
    unfold refresh_token
    cases htok : st._token with
    | none => rfl
    | some tok =>
        simp only
        by_cases hf : pyTruthyOptStr tok.refresh_token = false
        · simp [hf]
        · simp only [Bool.not_eq_false] at hf
          simp [hf, h]
  · intro tok h ht hs
    refine ⟨?_, rfl⟩
    unfold refresh_token
    rw [h]
    simp [ht, hs]

/-- Concrete witness for `refresh_spec`: a held token without a
refresh_token makes refresh a no-op failure. -/
theorem refresh_spec_witness :
    refresh_token
      ⟨some ⟨"a", none, some 3600, 1000⟩, none, ⟨[], [], 0, 0⟩⟩
      0 ⟨200, ⟨"b", some "r2", some 3600⟩⟩ 0 =
      (false, ⟨some ⟨"a", none, some 3600, 1000⟩, none, ⟨[], [], 0, 0⟩⟩) :=
  (refresh_spec ⟨some ⟨"a", none, some 3600, 1000⟩, none, ⟨[], [], 0, 0⟩⟩
    0 ⟨200, ⟨"b", some "r2", some 3600⟩⟩ 0).2.1
    ⟨"a", none, some 3600, 1000⟩ rfl (by decide)

/-- Counterexample to C5 as stated: a successful refresh whose response
omits `refresh_token` drops the previously held refresh_token instead of
carrying it over — the held token afterwards has none. -/
theorem refresh_carryover_cex :
    (refresh_token
        ⟨some ⟨"a", some "old", some 3600, 1000⟩, none, ⟨[], [], 0, 0⟩⟩
        0 ⟨200, ⟨"b", none, some 3600⟩⟩ 0).1 = true
    ∧ ((refresh_token
        ⟨some ⟨"a", some "old", some 3600, 1000⟩, none, ⟨[], [], 0, 0⟩⟩
        0 ⟨200, ⟨"b", none, some 3600⟩⟩ 0).2._token.bind
          (fun t => t.refresh_token)) ≠ some "old" := by
  constructor
  · rfl
  · intro h
    simp [refresh_token, pyTruthyOptStr, mkToken] at h

/-- C5 amended: on every successful refresh the held token's
refresh_token is exactly the one supplied by the token-endpoint
response — carried over only when the response supplies one; when the
response omits the field, the prior refresh_token is dropped. -/
theorem refresh_token_from_response (st : AuthSt) (now : Int)
    (resp : TokenHttpResp) (ts : Int)
    (hok : (refresh_token st now resp ts).1 = true) :
    ((refresh_token st now resp ts).2._token.map
      (fun t => t.refresh_token)) = some resp.body.refresh_token := by
  rcases htok : st._token with _ | tok
  · have heq : refresh_token st now resp ts = (false, st) := by
      unfold refresh_token; rw [htok]
    rw [heq] at hok
    simp at hok
  · by_cases hf : pyTruthyOptStr tok.refresh_token = false
    · have heq : refresh_token st now resp ts = (false, st) := by
        unfold refresh_token; rw [htok]; simp [hf]
      rw [heq] at hok
      simp at hok
    · simp only [Bool.not_eq_false] at hf
      by_cases hs : resp.status = 200
      · have heq : refresh_token st now resp ts =
            (true, { st with
              _token := some (mkToken resp.body now)
              storage :=
                update_oauth_token st.storage (mkToken resp.body now) ts }) := by
          unfold refresh_token; rw [htok]; simp [hf, hs]
        rw [heq]
        simp [mkToken]
      · have heq : refresh_token st now resp ts = (false, st) := by
          unfold refresh_token; rw [htok]; simp [hf, hs]
        rw [heq] at hok
        simp at hok

/-- Concrete witness for `refresh_token_from_response`: the C5
counterexample input, where the response omits the field. -/
theorem refresh_token_from_response_witness :
    ((refresh_token
        ⟨some ⟨"a", some "old", some 3600, 1000⟩, none, ⟨[], [], 0, 0⟩⟩
        0 ⟨200, ⟨"b", none, some 3600⟩⟩ 0).2._token.map
      (fun t => t.refresh_token)) = some none :=
  refresh_token_from_response
    ⟨some ⟨"a", some "old", some 3600, 1000⟩, none, ⟨[], [], 0, 0⟩⟩
    0 ⟨200, ⟨"b", none, some 3600⟩⟩ 0 rfl

/-- A refresh never discards the held token: afterwards some token is
still in memory (either the old one or the response's). -/
theorem refresh_token_keeps_token (st : AuthSt) (now : Int)
    (resp : TokenHttpResp) (ts : Int) (tok : Token)
    (h : st._token = some tok) :
    ∃ tok2, (refresh_token st now resp ts).2._token = some tok2 := by
  by_cases hf : pyTruthyOptStr tok.refresh_token = false
  · have heq : refresh_token st now resp ts = (false, st) := by
      unfold refresh_token; rw [h]; simp [hf]
    exact ⟨tok, by rw [heq]; exact h⟩
  · simp only [Bool.not_eq_false] at hf
    by_cases hs : resp.status = 200
    · have heq : refresh_token st now resp ts =
          (true, { st with
            _token := some (mkToken resp.body now)
            storage :=
              update_oauth_token st.storage (mkToken resp.body now) ts }) := by
        unfold refresh_token; rw [h]; simp [hf, hs]
      exact ⟨mkToken resp.body now, by rw [heq]⟩
    · have heq : refresh_token st now resp ts = (false, st) := by
        unfold refresh_token; rw [h]; simp [hf, hs]
      exact ⟨tok, by rw [heq]; exact h⟩

/-- C3: `get_headers` (`ensure_fresh`): with no held token it returns the
empty header dict and makes no refresh call; with a held token it makes
exactly one refresh call when `expires_at - now ≤ 60` (inclusive
boundary) and none when `expires_at - now = 61`; and the returned
headers carry `Bearer` followed by the (possibly refreshed) held
access_token. -/
theorem ensure_fresh_spec (st : AuthSt) (now : Int) (resp : TokenHttpResp)
    (ts : Int) :
    (st._token = none → get_headers st now resp ts = ([], 0, st))
    ∧ (∀ tok, st._token = some tok → tok.expires_at - now ≤ 60 →
        (get_headers st now resp ts).2.1 = 1)
    ∧ (∀ tok, st._token = some tok → tok.expires_at - now = 61 →
        (get_headers st now resp ts).2.1 = 0)
    ∧ (∀ tok, st._token = some tok →
        ∃ tok2, (get_headers st now resp ts).2.2._token = some tok2
          ∧ (get_headers st now resp ts).1 =
            [("Authorization", "Bearer " ++ tok2.access_token),
             ("Accept", "application/json"),
             ("Content-Type", "application/json")]) := by
  refine ⟨?_, ?_, ?_, ?_⟩
  · intro h
    unfold get_headers
    rw [h]
  · intro tok h hle
    unfold get_headers
    rw [h]
    simp only [if_pos hle]
    rcases refresh_token_keeps_token st now resp ts tok h with ⟨tok2, h2⟩
    rw [h2]
  · intro tok h h61
    have hgt : ¬(tok.expires_at - now ≤ 60) := by omega
    unfold get_headers
    rw [h]
    simp only [if_neg hgt]
    rw [h]
  · intro tok h
    unfold get_headers
    rw [h]
    by_cases hle : tok.expires_at - now ≤ 60
    · simp only [if_pos hle]
      rcases refresh_token_keeps_token st now resp ts tok h with ⟨tok2, h2⟩
      rw [h2]
      exact ⟨tok2, h2, rfl⟩
    · simp only [if_neg hle]
      rw [h]
      exact ⟨tok, h, rfl⟩

/-- Concrete witness for `ensure_fresh_spec`: a token 61 seconds from
expiry triggers no refresh; one 60 seconds from expiry triggers exactly
one. -/
theorem ensure_fresh_spec_witness :
    (get_headers ⟨some ⟨"a", some "r", some 3600, 1061⟩, none, ⟨[], [], 0, 0⟩⟩
      1000 ⟨200, ⟨"b", some "r2", some 3600⟩⟩ 1000).2.1 = 0
    ∧ (get_headers ⟨some ⟨"a", some "r", some 3600, 1060⟩, none, ⟨[], [], 0, 0⟩⟩
      1000 ⟨200, ⟨"b", some "r2", some 3600⟩⟩ 1000).2.1 = 1 :=
  ⟨(ensure_fresh_spec ⟨some ⟨"a", some "r", some 3600, 1061⟩, none,
      ⟨[], [], 0, 0⟩⟩ 1000 ⟨200, ⟨"b", some "r2", some 3600⟩⟩ 1000).2.2.1
    ⟨"a", some "r", some 3600, 1061⟩ rfl (by decide),
   (ensure_fresh_spec ⟨some ⟨"a", some "r", some 3600, 1060⟩, none,
      ⟨[], [], 0, 0⟩⟩ 1000 ⟨200, ⟨"b", some "r2", some 3600⟩⟩ 1000).2.1
    ⟨"a", some "r", some 3600, 1060⟩ rfl (by decide)⟩

/-- C2: `handle_callback` (`complete_login`) rejects the callback with
no mutation whatsoever — no in-memory token or tenant, no credential
store write — whenever state decryption fails or the 600-second window
has elapsed, whenever the authorization-code exchange returns a non-200
status, and whenever tenant discovery fails or returns no tenants. -/
theorem complete_login_no_partial_persistence (st : AuthSt)
    (stateValid : Bool) (stateObj : StateObj) (stateTokenTs : Int)
    (sessionVerifier : String) (tokenResp : TokenHttpResp)
    (resourcesResp : ResourcesResp) (now ts : Int) :
    (stateValid = false ∨ stateTokenTs + 600 < now →
      handle_callback st stateValid stateObj stateTokenTs sessionVerifier
        tokenResp resourcesResp now ts = st)
    ∧ (tokenResp.status ≠ 200 →
      handle_callback st stateValid stateObj stateTokenTs sessionVerifier
        tokenResp resourcesResp now ts = st)
    ∧ (resourcesResp.status ≠ 200 ∨ resourcesResp.body = [] →
      handle_callback st stateValid stateObj stateTokenTs sessionVerifier
        tokenResp resourcesResp now ts = st) := by
  refine ⟨?_, ?_, ?_⟩
  · intro h
    have hdec : fernetDecrypt stateValid stateObj stateTokenTs now = none := by
      unfold fernetDecrypt
      rw [if_neg]
      rintro ⟨hv, hw, _⟩
      rcases h with h | h
      · rw [h] at hv; exact Bool.noConfusion hv
      · omega
    unfold handle_callback
    rw [hdec]
  · intro h
    unfold handle_callback
    cases hdec : fernetDecrypt stateValid stateObj stateTokenTs now with
    | none => rfl
    | some state =>
        simp only
        by_cases hcv : (if state.code_verifier ≠ "" then state.code_verifier
            else sessionVerifier) = ""
        · rw [if_pos hcv]
        · rw [if_neg hcv, if_pos h]
  · intro h
    unfold handle_callback
    cases hdec : fernetDecrypt stateValid stateObj stateTokenTs now with
    | none => rfl
    | some state =>
        simp only
        by_cases hcv : (if state.code_verifier ≠ "" then state.code_verifier
            else sessionVerifier) = ""
        · rw [if_pos hcv]
        · rw [if_neg hcv]
          by_cases hts : tokenResp.status ≠ 200
          · rw [if_pos hts]
          · rw [if_neg hts]
            rcases h with h | h
            · rw [if_pos h]
            · by_cases hrs : resourcesResp.status ≠ 200
              · rw [if_pos hrs]
              · rw [if_neg hrs, h]

/-- Concrete witness for `complete_login_no_partial_persistence`: an
expired state (encrypted 601 seconds ago) leaves a nonempty store and
the whole session state untouched. -/
theorem complete_login_no_partial_persistence_witness :
    handle_callback
      ⟨none, none,
       ⟨[⟨1, "alice", "c", "u", "n", ⟨"a", none, none, 0⟩, ⟨"c", "u", "n"⟩,
          10⟩], [], 2, 0⟩⟩
      true ⟨"alice", "v", 0, "cv"⟩ 0 "fallback"
      ⟨200, ⟨"b", some "r", some 3600⟩⟩ ⟨200, [⟨"cid", "curl", "cname"⟩]⟩
      601 601 =
      ⟨none, none,
       ⟨[⟨1, "alice", "c", "u", "n", ⟨"a", none, none, 0⟩, ⟨"c", "u", "n"⟩,
          10⟩], [], 2, 0⟩⟩ :=
  (complete_login_no_partial_persistence
    ⟨none, none,
     ⟨[⟨1, "alice", "c", "u", "n", ⟨"a", none, none, 0⟩, ⟨"c", "u", "n"⟩,
        10⟩], [], 2, 0⟩⟩
    true ⟨"alice", "v", 0, "cv"⟩ 0 "fallback"
    ⟨200, ⟨"b", some "r", some 3600⟩⟩ ⟨200, [⟨"cid", "curl", "cname"⟩]⟩
    601 601).1 (Or.inr (by decide))

/-! ## CSV worklog import — `src/app.py` (tab_csv) and
`src/utils/csv_utils.py`

The import loop computes
`seconds = int(round(raw_hours * 3600 / 900) * 900); if seconds <= 0:
seconds = 900` from `raw_hours = float(row["…"].replace(',', '.'))`,
and parses the date with `dayfirst=True` and the time as `HH:MM`.
Durations are modelled as exact rationals; Python's `round` is
round-half-to-even. -/

/-- Python `round(q)` (banker's rounding / round-half-to-even). -/
def pyRound (q : ℚ) : ℤ :=
  if q - ⌊q⌋ < 1 / 2 then ⌊q⌋
  else if 1 / 2 < q - ⌊q⌋ then ⌊q⌋ + 1
  else if ⌊q⌋ % 2 = 0 then ⌊q⌋
  else ⌊q⌋ + 1

/-- The import loop's duration conversion:
`seconds = int(round(raw_hours * 3600 / 900) * 900)`, clamped to a
minimum of 900 by `if seconds <= 0: seconds = 900`. -/
def importSeconds (raw_hours : ℚ) : ℤ :=
  if pyRound (raw_hours * 3600 / 900) * 900 ≤ 0 then 900
  else pyRound (raw_hours * 3600 / 900) * 900

/-- Digits-to-number parsing (the numeric core of `float`/`int`
parsing). -/
def parseNatDigits (cs : List Char) : Option ℕ :=
  if cs = [] then none
  else if cs.all pyIsDigit then
    some (cs.foldl (fun acc c => acc * 10 + (c.toNat - '0'.toNat)) 0)
  else none

/-- Models `float(s.replace(',', '.'))` on plain decimal strings
(`digits[.digits]`), read exactly (as a rational). -/
def parseCommaDecimal (s : String) : Option ℚ :=
  match (s.toList.map (fun c => if c = ',' then '.' else c)).splitOn '.' with
  | [ip] => (parseNatDigits ip).map (fun n => (n : ℚ))
  | [ip, fp] =>
      match parseNatDigits ip, parseNatDigits fp with
      | some a, some b => some ((a : ℚ) + (b : ℚ) / ((10 : ℚ) ^ fp.length))
      | _, _ => none
  | _ => none

/-- A calendar date as day/month/year. -/
structure DateDMY where
  day : ℕ
  month : ℕ
  year : ℕ
  deriving DecidableEq, Repr

/-- Models `pd.to_datetime(s, dayfirst=True).date()` on `DD.MM.YYYY` strings:
the first component is the day. -/
def parseDateDayfirst (s : String) : Option DateDMY :=
  match s.toList.splitOn '.' with
  | [d, m, y] =>
      match parseNatDigits d, parseNatDigits m, parseNatDigits y with
      | some dd, some mm, some yy => some ⟨dd, mm, yy⟩
      | _, _, _ => none
  | _ => none

/-- Models `pd.to_datetime(s).time()` on `HH:MM` strings. -/
def parseTimeHM (s : String) : Option (ℕ × ℕ) :=
  match s.toList.splitOn ':' with
  | [h, m] =>
      match parseNatDigits h, parseNatDigits m with
      | some hh, some mm => some (hh, mm)
      | _, _ => none
  | _ => none

/-- The validator's duration check from `validate_worklog_rows`:
a row passes iff `abs(hours*4 - round(hours*4)) <= 1e-6`. -/
def durationQuarterAligned (hours : ℚ) : Bool :=
  decide (|hours * 4 - (pyRound (hours * 4) : ℚ)| ≤ 1 / 1000000)

theorem pyRound_intCast (k : ℤ) : pyRound ((k : ℚ)) = k := by
  unfold pyRound
  rw [Int.floor_intCast]
  norm_num

/-- C9: the import loop's duration conversion always produces a positive
multiple of 900 seconds; for a duration of `k` quarter-hours it is
exactly `max (k·900) 900` (nearest 900-second multiple, minimum one
quarter-hour).  The spec row `"T-9;01.03.2024;1,25;09:00;test"` parses
to 1.25 h (validator-aligned) = 4500 s starting 2024-03-01 at 09:00, and
`"0,10"` h (360 s) converts to 900 s, not zero (the validator flags that
row as not quarter-aligned, so it never reaches the loop, but the
conversion itself clamps to 900). -/
theorem csv_import_spec :
    (∀ h : ℚ, importSeconds h % 900 = 0 ∧ 900 ≤ importSeconds h)
    ∧ (∀ k : ℤ, importSeconds ((k : ℚ) / 4) = max (k * 900) 900)
    ∧ parseCommaDecimal "1,25" = some (5 / 4 : ℚ)
    ∧ durationQuarterAligned (5 / 4 : ℚ) = true
    ∧ importSeconds (5 / 4) = 4500
    ∧ parseDateDayfirst "01.03.2024" = some ⟨1, 3, 2024⟩
    ∧ parseTimeHM "09:00" = some (9, 0)
    ∧ parseCommaDecimal "0,10" = some (1 / 10 : ℚ)
    ∧ (1 / 10 : ℚ) * 3600 = 360
    ∧ importSeconds (1 / 10) = 900
    ∧ durationQuarterAligned (1 / 10 : ℚ) = false := by
  refine ⟨?_, ?_, ?_, ?_, ?_, by decide, by decide, ?_, by norm_num, ?_, ?_⟩
  · intro h
    unfold importSeconds
    by_cases hle : pyRound (h * 3600 / 900) * 900 ≤ 0
    · rw [if_pos hle]
      exact ⟨by decide, by omega⟩
    · rw [if_neg hle]
      exact ⟨Int.mul_emod_left _ _, by omega⟩
  · intro k
    have h1 : ((k : ℚ) / 4) * 3600 / 900 = (k : ℚ) := by ring
    unfold importSeconds
    rw [h1, pyRound_intCast]
    by_cases hle : k * 900 ≤ 0
    · rw [if_pos hle, max_eq_right (by omega)]
    · rw [if_neg hle, max_eq_left (by omega)]
  · have h : parseCommaDecimal "1,25" =
        some (((1 : ℕ) : ℚ) + ((25 : ℕ) : ℚ) / ((10 : ℚ) ^ (2 : ℕ))) := rfl
    rw [h]
    norm_num
  · unfold durationQuarterAligned
    rw [decide_eq_true_eq]
    have h1 : (5 / 4 : ℚ) * 4 = ((5 : ℤ) : ℚ) := by norm_num
    rw [h1, pyRound_intCast]
    norm_num
  · have h1 : (5 / 4 : ℚ) * 3600 / 900 = ((5 : ℤ) : ℚ) := by norm_num
    unfold importSeconds
    rw [h1, pyRound_intCast]
    norm_num
  · have h : parseCommaDecimal "0,10" =
        some (((0 : ℕ) : ℚ) + ((10 : ℕ) : ℚ) / ((10 : ℚ) ^ (2 : ℕ))) := rfl
    rw [h]
    norm_num
  · have h1 : (1 / 10 : ℚ) * 3600 / 900 = (2 / 5 : ℚ) := by norm_num
    have h2 : pyRound (2 / 5 : ℚ) = 0 := by unfold pyRound; norm_num
    unfold importSeconds
    rw [h1, h2]
    norm_num
  · unfold durationQuarterAligned
    rw [decide_eq_false_iff_not]
    have h1 : (1 / 10 : ℚ) * 4 = (2 / 5 : ℚ) := by norm_num
    have h2 : pyRound (2 / 5 : ℚ) = 0 := by unfold pyRound; norm_num
    rw [h1, h2]
    simp only [Int.cast_zero, sub_zero]
    rw [abs_of_nonneg (by norm_num)]
    norm_num

end MindTagger
